import Mathlib

/-!
Verification of the agent orchestration core of `travel-agent-ai`
(`backend/app/agents/`): the dispatcher (`AgentManager.process`), the
sequential workflow executor (`AgentManager.process_workflow`), and the
per-agent tools of the optimizer, payment and notification agents.

Python dicts are embedded as association lists that preserve insertion
order; `dict.__setitem__` replaces the value in place for an existing key
and appends for a fresh key, and `dict.update` applies the other dict's
entries in order, exactly as `aset` / `dupdate` below.  The LLM-backed
`Agent.process` bodies are external collaborators (they call OpenAI); the
dispatcher is therefore parametrised by the registry, mapping agent names
to opaque behaviours that either return an `AgentOutput` or raise an
exception with a message.
-/

namespace TravelAgent

/-- JSON-ish values as they appear in the orchestration dictionaries. -/
inductive Val where
  | s (v : String)
  | n (v : Nat)
  | b (v : Bool)
  | d (entries : List (String × Val))

/-- Python-dict lookup in an association list: first matching key wins
(keys are unique in every dict the code builds). -/
def aget {κ α : Type} [DecidableEq κ] : List (κ × α) → κ → Option α
  | [], _ => none
  | (k', v) :: rest, k => if k' = k then some v else aget rest k

/-- Python `d[k] = v`: replace in place for an existing key, append for a
fresh one. -/
def aset {κ α : Type} [DecidableEq κ] : List (κ × α) → κ → α → List (κ × α)
  | [], k, v => [(k, v)]
  | (k', v') :: rest, k, v =>
      if k' = k then (k, v) :: rest else (k', v') :: aset rest k v

/-- Python `d.update(other)`: apply `other`'s entries, in order, by
`__setitem__`; colliding keys therefore take `other`'s values. -/
def dupdate {κ α : Type} [DecidableEq κ] (d other : List (κ × α)) : List (κ × α) :=
  other.foldl (fun acc kv => aset acc kv.1 kv.2) d

abbrev Dict := List (String × Val)

/-! ### Association-list lemmas -/

theorem aget_aset_self {κ α : Type} [DecidableEq κ] (d : List (κ × α)) (k : κ) (v : α) :
    aget (aset d k v) k = some v := by
  induction d with
  | nil => simp [aget, aset]
  | cons hd tl ih =>
    obtain ⟨k', v'⟩ := hd
    by_cases h : k' = k <;> simp [aget, aset, h, ih]

theorem aget_aset_ne {κ α : Type} [DecidableEq κ] (d : List (κ × α)) (k k' : κ) (v : α)
    (h : k' ≠ k) : aget (aset d k' v) k = aget d k := by
  induction d with
  | nil => simp [aget, aset, h]
  | cons hd tl ih =>
    obtain ⟨k₀, v₀⟩ := hd
    by_cases h₀ : k₀ = k' <;> by_cases h₁ : k₀ = k <;>
      simp_all [aget, aset]

theorem aset_fresh {κ α : Type} [DecidableEq κ] (d : List (κ × α)) (k : κ) (v : α)
    (h : k ∉ d.map Prod.fst) : aset d k v = d ++ [(k, v)] := by
  induction d with
  | nil => simp [aset]
  | cons hd tl ih =>
    obtain ⟨k₀, v₀⟩ := hd
    simp only [List.map_cons, List.mem_cons] at h
    push_neg at h
    simp [aset, Ne.symm h.1, ih h.2]

theorem keys_aset_mem {κ α : Type} [DecidableEq κ] (d : List (κ × α)) (k k' : κ) (v : α)
    (h : k' ∈ (aset d k v).map Prod.fst) : k' ∈ d.map Prod.fst ∨ k' = k := by
  induction d with
  | nil =>
    simp [aset] at h
    exact .inr h
  | cons hd tl ih =>
    obtain ⟨k₀, v₀⟩ := hd
    simp only [List.map_cons, List.mem_cons]
    by_cases h₀ : k₀ = k
    · simp only [aset, if_pos h₀, List.map_cons, List.mem_cons] at h
      rcases h with h | h
      · exact .inr h
      · exact .inl (.inr h)
    · simp only [aset, if_neg h₀, List.map_cons, List.mem_cons] at h
      rcases h with h | h
      · exact .inl (.inl h)
      · rcases ih h with hm | hm
        · exact .inl (.inr hm)
        · exact .inr hm

/-- `d[k] = v` keeps the keys duplicate-free: this is the dict invariant
every store and accumulated context of the source maintains. -/
theorem nodup_keys_aset {κ α : Type} [DecidableEq κ] (d : List (κ × α)) (k : κ) (v : α)
    (h : (d.map Prod.fst).Nodup) : ((aset d k v).map Prod.fst).Nodup := by
  induction d with
  | nil => simp [aset]
  | cons hd tl ih =>
    obtain ⟨k₀, v₀⟩ := hd
    simp only [List.map_cons, List.nodup_cons] at h
    show ((if k₀ = k then (k, v) :: tl else (k₀, v₀) :: aset tl k v).map Prod.fst).Nodup
    by_cases h₀ : k₀ = k
    · rw [if_pos h₀]
      subst h₀
      simp only [List.map_cons, List.nodup_cons]
      exact h
    · rw [if_neg h₀]
      simp only [List.map_cons, List.nodup_cons]
      refine ⟨?_, ih h.2⟩
      intro hmem
      rcases keys_aset_mem tl k k₀ v hmem with hm | hm
      · exact h.1 hm
      · exact h₀ hm

theorem aget_eq_none_of_not_mem {κ α : Type} [DecidableEq κ] (d : List (κ × α)) (k : κ)
    (h : k ∉ d.map Prod.fst) : aget d k = none := by
  induction d with
  | nil => rfl
  | cons hd tl ih =>
    obtain ⟨k₀, v₀⟩ := hd
    simp only [List.map_cons, List.mem_cons] at h
    push_neg at h
    show (if k₀ = k then some v₀ else aget tl k) = none
    rw [if_neg (Ne.symm h.1)]
    exact ih h.2

theorem aget_append_right {κ α : Type} [DecidableEq κ] (l r : List (κ × α)) (k : κ)
    (h : k ∉ l.map Prod.fst) : aget (l ++ r) k = aget r k := by
  induction l with
  | nil => rfl
  | cons hd tl ih =>
    obtain ⟨k₀, v₀⟩ := hd
    simp only [List.map_cons, List.mem_cons] at h
    push_neg at h
    show (if k₀ = k then some v₀ else aget (tl ++ r) k) = aget r k
    rw [if_neg (Ne.symm h.1)]
    exact ih h.2

theorem aget_append_left {κ α : Type} [DecidableEq κ] (l r : List (κ × α)) (k : κ) (v : α)
    (h : aget l k = some v) : aget (l ++ r) k = some v := by
  induction l with
  | nil => simp [aget] at h
  | cons hd tl ih =>
    obtain ⟨k₀, v₀⟩ := hd
    by_cases h₀ : k₀ = k <;> simp_all [aget]

/-- If `other` does not bind `k`, `d.update(other)` leaves the value at
`k` unchanged. -/
theorem aget_dupdate_of_none {κ α : Type} [DecidableEq κ] (other : List (κ × α)) :
    ∀ (d : List (κ × α)) (k : κ), aget other k = none →
      aget (dupdate d other) k = aget d k := by
  induction other with
  | nil => intro d k _; rfl
  | cons hd tl ih =>
    obtain ⟨k₀, v₀⟩ := hd
    intro d k h
    by_cases h₀ : k₀ = k
    · simp [aget, h₀] at h
    · simp only [aget, if_neg h₀] at h
      show aget (dupdate (aset d k₀ v₀) tl) k = aget d k
      rw [ih (aset d k₀ v₀) k h, aget_aset_ne d k k₀ v₀ h₀]

/-- If `other` binds `k` (first occurrence, with unique keys), then after
`d.update(other)` the value at `k` is `other`'s value: inherited entries
overwrite colliding keys. -/
theorem aget_dupdate_of_mem {κ α : Type} [DecidableEq κ] (other : List (κ × α))
    (hnd : (other.map Prod.fst).Nodup) :
    ∀ (d : List (κ × α)) (k : κ) (v : α), aget other k = some v →
      aget (dupdate d other) k = some v := by
  induction other with
  | nil => intro d k v h; simp [aget] at h
  | cons hd tl ih =>
    obtain ⟨k₀, v₀⟩ := hd
    simp only [List.map_cons, List.nodup_cons] at hnd
    intro d k v h
    by_cases h₀ : k₀ = k
    · subst h₀
      simp [aget] at h
      subst h
      show aget (dupdate (aset d k₀ v₀) tl) k₀ = some v₀
      have htl : aget tl k₀ = none :=
        aget_eq_none_of_not_mem tl k₀ hnd.1
      rw [aget_dupdate_of_none tl (aset d k₀ v₀) k₀ htl]
      exact aget_aset_self _ _ _
    · simp only [aget, if_neg h₀] at h
      exact ih hnd.2 (aset d k₀ v₀) k v h

/-! ### Dispatcher (`AgentManager.process`) and workflow executor
(`AgentManager.process_workflow`), `agent_manager.py` lines 19-83.

An agent's `process` body calls the LLM-backed planner, an external
collaborator, so the registry maps agent names to opaque behaviours:
`AgentResult.ok` models a normal `AgentOutput` return, `AgentResult.exn`
an exception whose `str(e)` is the carried message. -/

/-- `base.py` `AgentInput`: query string (default `""`) and context dict. -/
structure AgentInput where
  query : String
  context : Dict

/-- `base.py` `AgentOutput`: output string and metadata dict. -/
structure AgentOutput where
  output : String
  metadata : Dict

/-- Outcome of `await agent.process(agent_input)`. -/
inductive AgentResult where
  | ok (out : AgentOutput)
  | exn (message : String)

/-- `AgentManager.self.agents`: name-keyed registry of agent behaviours. -/
abbrev Registry := List (String × (AgentInput → AgentResult))

/-- The caller-supplied `input_data` mapping as `AgentManager.process`
reads it: the `"query"` entry (a string if present) and the `"context"`
entry (a dict if present); `none` models an absent key, so `.get`'s
defaults `""` and `{}` become `getD`. -/
structure StepInput where
  query : Option String
  context : Option Dict

/-- `AgentManager.process`, `agent_manager.py` lines 19-45. -/
def managerProcess (agents : Registry) (agentName : String) (inputData : StepInput) :
    Dict :=
  match aget agents agentName with
  | none =>
      [("status", .s "error"),
       ("message", .s ("Agent '" ++ agentName ++ "' not found"))]
  | some agentFn =>
      match agentFn ⟨inputData.query.getD "", inputData.context.getD []⟩ with
      | .ok out =>
          [("status", .s "success"), ("output", .s out.output),
           ("metadata", .d out.metadata)]
      | .exn m =>
          [("status", .s "error"), ("message", .s m), ("agent", .s agentName)]

/-- A workflow step: `step.get("agent")` (a string if present) and
`step.get("input", {})` viewed through the two keys `process` reads. -/
structure WStep where
  agent : Option String
  input : StepInput

/-- `if not agent_name`: Python truthiness makes both an absent key and
the empty string count as "no agent specified". -/
def effAgent (s : WStep) : Option String :=
  match s.agent with
  | none => none
  | some a => if a = "" then none else some a

/-- Lines 62-65: ensure the step input has a `"context"` dict, then
`step_input["context"].update(context)` — the accumulated `context` is
merged in with `dict.update`, so its entries overwrite colliding keys of
the step's own context. -/
def mergedInput (s : WStep) (ctx : Dict) : StepInput :=
  { s.input with context := some (dupdate (s.input.context.getD []) ctx) }

/-- `result.get("status") == "error"`: true exactly when the `"status"`
entry is the string `"error"` (Python `==` between a string and any
non-string value is `False`). -/
def isErrorStatus (result : Dict) : Bool :=
  match aget result "status" with
  | some (.s st) => st == "error"
  | _ => false

/-- Keys of the workflow `results` dict.  In the source these are the
Python strings `f"step_{i}"`, `"status"` and `"failed_step"`, which are
pairwise distinct and determine `i`; the tagged type records exactly
those strings. -/
inductive RKey where
  | step (i : Nat)
  | status
  | failed
deriving DecidableEq, Repr

abbrev WDict := List (RKey × Val)

/-- The entry recorded for a step with no agent name (lines 55-58). -/
def noAgentResult : Dict :=
  [("status", .s "error"), ("message", .s "No agent specified")]

/-- The loop of `AgentManager.process_workflow` (lines 52-78): `i` is the
enumeration index, `results` the results dict, `ctx` the accumulating
`context` dict. -/
def runWorkflowAux (agents : Registry) : List WStep → Nat → WDict → Dict → WDict
  | [], _, results, _ => results
  | step :: rest, i, results, ctx =>
      match effAgent step with
      | none =>
          runWorkflowAux agents rest (i + 1)
            (aset results (.step i) (.d noAgentResult)) ctx
      | some name =>
          if isErrorStatus (managerProcess agents name (mergedInput step ctx)) then
            aset (aset (aset results (.step i)
              (.d (managerProcess agents name (mergedInput step ctx))))
              .status (.s "error")) .failed (.n i)
          else
            runWorkflowAux agents rest (i + 1)
              (aset results (.step i)
                (.d (managerProcess agents name (mergedInput step ctx))))
              (aset ctx name (.d (managerProcess agents name (mergedInput step ctx))))

/-- `AgentManager.process_workflow`, lines 47-83: run the loop from empty
`results`/`context`, then `if "status" not in results: results["status"]
= "success"`. -/
def processWorkflow (agents : Registry) (ws : List WStep) : WDict :=
  match aget (runWorkflowAux agents ws 0 [] []) .status with
  | none => aset (runWorkflowAux agents ws 0 [] []) .status (.s "success")
  | some _ => runWorkflowAux agents ws 0 [] []

/-- Derived from the same loop: the index of the first step whose
dispatched result has status `"error"` (the fail-fast break at line 75),
`none` when every step either lacks an agent name or dispatches without
an error status. -/
def failIdx (agents : Registry) : List WStep → Dict → Nat → Option Nat
  | [], _, _ => none
  | step :: rest, ctx, i =>
      match effAgent step with
      | none => failIdx agents rest ctx (i + 1)
      | some name =>
          if isErrorStatus (managerProcess agents name (mergedInput step ctx)) then some i
          else failIdx agents rest
            (aset ctx name (.d (managerProcess agents name (mergedInput step ctx)))) (i + 1)

/-- Derived from the same loop: the per-step entries recorded, in
execution order, up to and including a fail-fast stop. -/
def stepTrace (agents : Registry) : List WStep → Dict → Nat → WDict
  | [], _, _ => []
  | step :: rest, ctx, i =>
      match effAgent step with
      | none => (.step i, .d noAgentResult) :: stepTrace agents rest ctx (i + 1)
      | some name =>
          if isErrorStatus (managerProcess agents name (mergedInput step ctx)) then
            [(.step i, .d (managerProcess agents name (mergedInput step ctx)))]
          else
            (.step i, .d (managerProcess agents name (mergedInput step ctx))) ::
              stepTrace agents rest
                (aset ctx name (.d (managerProcess agents name (mergedInput step ctx)))) (i + 1)

/-! ### Structural lemmas about the workflow loop -/

theorem step_not_mem_range_steps (i n : Nat) (h : n ≤ i) :
    RKey.step i ∉ (List.range n).map RKey.step := by
  simp only [List.mem_map, List.mem_range]
  rintro ⟨j, hj, hji⟩
  cases hji
  omega

theorem status_not_mem_steps (l : List Nat) :
    RKey.status ∉ l.map RKey.step := by
  simp only [List.mem_map]
  rintro ⟨j, _, hj⟩
  cases hj

theorem failed_not_mem_steps (l : List Nat) :
    RKey.failed ∉ l.map RKey.step := by
  simp only [List.mem_map]
  rintro ⟨j, _, hj⟩
  cases hj

/-- When the loop fail-fasts at index `m`, the raw loop result is the
incoming `results` followed by the per-step trace and the `"status"` /
`"failed_step"` entries, in that order. -/
theorem runAux_eq_fail (agents : Registry) :
    ∀ (ws : List WStep) (i : Nat) (results : WDict) (ctx : Dict) (m : Nat),
      results.map Prod.fst = (List.range i).map RKey.step →
      failIdx agents ws ctx i = some m →
      runWorkflowAux agents ws i results ctx =
        (results ++ stepTrace agents ws ctx i) ++
          [(RKey.status, .s "error"), (RKey.failed, .n m)] := by
  intro ws
  induction ws with
  | nil => intro i results ctx m _ hfail; simp [failIdx] at hfail
  | cons step rest ih =>
    intro i results ctx m hk hfail
    have hfresh : RKey.step i ∉ results.map Prod.fst := by
      rw [hk]; exact step_not_mem_range_steps i i le_rfl
    have hknext : ∀ v : Val,
        (aset results (RKey.step i) v).map Prod.fst =
          (List.range (i + 1)).map RKey.step := by
      intro v
      rw [aset_fresh results (RKey.step i) v hfresh, List.map_append, hk,
        List.range_succ, List.map_append]
      rfl
    cases heff : effAgent step with
    | none =>
      have hfail' : failIdx agents rest ctx (i + 1) = some m := by
        simpa [failIdx, heff] using hfail
      simp only [runWorkflowAux, heff, stepTrace]
      rw [ih (i + 1) _ ctx m (hknext _) hfail',
        aset_fresh results (RKey.step i) _ hfresh]
      simp [List.append_assoc]
    | some name =>
      by_cases herr : isErrorStatus (managerProcess agents name (mergedInput step ctx))
      · have hm : m = i := by
          simp only [failIdx, heff, if_pos herr, Option.some.injEq] at hfail
          omega
        subst hm
        simp only [runWorkflowAux, heff, if_pos herr, stepTrace]
        rw [aset_fresh results (RKey.step m) _ hfresh]
        have h₁ : RKey.status ∉ (results ++ [(RKey.step m,
            Val.d (managerProcess agents name (mergedInput step ctx)))]).map Prod.fst := by
          rw [List.map_append, hk]
          intro hmem
          rcases List.mem_append.mp hmem with h | h
          · exact status_not_mem_steps _ h
          · simp at h
        rw [aset_fresh _ RKey.status _ h₁]
        have h₂ : RKey.failed ∉ ((results ++ [(RKey.step m,
            Val.d (managerProcess agents name (mergedInput step ctx)))]) ++
              [(RKey.status, Val.s "error")]).map Prod.fst := by
          rw [List.map_append, List.map_append, hk]
          intro hmem
          rcases List.mem_append.mp hmem with h | h
          · rcases List.mem_append.mp h with h' | h'
            · exact failed_not_mem_steps _ h'
            · simp at h'
          · simp at h
        rw [aset_fresh _ RKey.failed _ h₂]
        simp [List.append_assoc]
      · have hfail' : failIdx agents rest
            (aset ctx name (.d (managerProcess agents name (mergedInput step ctx))))
            (i + 1) = some m := by
          simpa [failIdx, heff, if_neg herr] using hfail
        simp only [runWorkflowAux, heff, if_neg herr, stepTrace]
        rw [ih (i + 1) _ _ m (hknext _) hfail',
          aset_fresh results (RKey.step i) _ hfresh]
        simp [List.append_assoc]

/-- When no step fail-fasts, the raw loop result is the incoming
`results` followed by the per-step trace. -/
theorem runAux_eq_ok (agents : Registry) :
    ∀ (ws : List WStep) (i : Nat) (results : WDict) (ctx : Dict),
      results.map Prod.fst = (List.range i).map RKey.step →
      failIdx agents ws ctx i = none →
      runWorkflowAux agents ws i results ctx =
        results ++ stepTrace agents ws ctx i := by
  intro ws
  induction ws with
  | nil => intro i results ctx _ _; simp [runWorkflowAux, stepTrace]
  | cons step rest ih =>
    intro i results ctx hk hfail
    have hfresh : RKey.step i ∉ results.map Prod.fst := by
      rw [hk]; exact step_not_mem_range_steps i i le_rfl
    have hknext : ∀ v : Val,
        (aset results (RKey.step i) v).map Prod.fst =
          (List.range (i + 1)).map RKey.step := by
      intro v
      rw [aset_fresh results (RKey.step i) v hfresh, List.map_append, hk,
        List.range_succ, List.map_append]
      rfl
    cases heff : effAgent step with
    | none =>
      have hfail' : failIdx agents rest ctx (i + 1) = none := by
        simpa [failIdx, heff] using hfail
      simp only [runWorkflowAux, heff, stepTrace]
      rw [ih (i + 1) _ ctx (hknext _) hfail',
        aset_fresh results (RKey.step i) _ hfresh]
      simp [List.append_assoc]
    | some name =>
      by_cases herr : isErrorStatus (managerProcess agents name (mergedInput step ctx))
      · simp [failIdx, heff, if_pos herr] at hfail
      · have hfail' : failIdx agents rest
            (aset ctx name (.d (managerProcess agents name (mergedInput step ctx))))
            (i + 1) = none := by
          simpa [failIdx, heff, if_neg herr] using hfail
        simp only [runWorkflowAux, heff, if_neg herr, stepTrace]
        rw [ih (i + 1) _ _ (hknext _) hfail',
          aset_fresh results (RKey.step i) _ hfresh]
        simp [List.append_assoc]

theorem range_map_shift {α : Type} (f : Nat → α) (i n : Nat) :
    (List.range (n + 1)).map (fun j => f (i + j)) =
      f i :: (List.range n).map (fun j => f (i + 1 + j)) := by
  rw [List.range_succ_eq_map, List.map_cons, List.map_map]
  refine congrArg₂ _ (by rw [Nat.add_zero]) ?_
  apply List.map_congr_left
  intro j _
  show f (i + (j + 1)) = f (i + 1 + j)
  congr 1
  omega

theorem failIdx_ge (agents : Registry) :
    ∀ (ws : List WStep) (ctx : Dict) (i m : Nat),
      failIdx agents ws ctx i = some m → i ≤ m := by
  intro ws
  induction ws with
  | nil => intro ctx i m h; simp [failIdx] at h
  | cons step rest ih =>
    intro ctx i m h
    cases heff : effAgent step with
    | none =>
      have := ih ctx (i + 1) m (by simpa [failIdx, heff] using h)
      omega
    | some name =>
      by_cases herr : isErrorStatus (managerProcess agents name (mergedInput step ctx))
      · simp only [failIdx, heff, if_pos herr, Option.some.injEq] at h
        omega
      · have := ih _ (i + 1) m (by simpa [failIdx, heff, if_neg herr] using h)
        omega

/-- After a fail-fast stop at index `m`, the per-step trace carries keys
`step_i, ..., step_m`, in order. -/
theorem stepTrace_keys_fail (agents : Registry) :
    ∀ (ws : List WStep) (ctx : Dict) (i m : Nat),
      failIdx agents ws ctx i = some m →
      (stepTrace agents ws ctx i).map Prod.fst =
        (List.range (m + 1 - i)).map (fun j => RKey.step (i + j)) := by
  intro ws
  induction ws with
  | nil => intro ctx i m h; simp [failIdx] at h
  | cons step rest ih =>
    intro ctx i m h
    cases heff : effAgent step with
    | none =>
      have h' : failIdx agents rest ctx (i + 1) = some m := by
        simpa [failIdx, heff] using h
      have hge := failIdx_ge agents rest ctx (i + 1) m h'
      have hsub : m + 1 - i = (m + 1 - (i + 1)) + 1 := by omega
      rw [hsub, range_map_shift]
      simp only [stepTrace, heff, List.map_cons]
      exact congrArg _ (ih ctx (i + 1) m h')
    | some name =>
      by_cases herr : isErrorStatus (managerProcess agents name (mergedInput step ctx))
      · have hm : m = i := by
          simp only [failIdx, heff, if_pos herr, Option.some.injEq] at h
          omega
        subst hm
        simp [stepTrace, heff, if_pos herr, Nat.add_sub_cancel_left, List.range_succ]
      · have h' : failIdx agents rest
            (aset ctx name (.d (managerProcess agents name (mergedInput step ctx))))
            (i + 1) = some m := by
          simpa [failIdx, heff, if_neg herr] using h
        have hge := failIdx_ge agents rest _ (i + 1) m h'
        have hsub : m + 1 - i = (m + 1 - (i + 1)) + 1 := by omega
        rw [hsub, range_map_shift]
        simp only [stepTrace, heff, if_neg herr, List.map_cons]
        exact congrArg _ (ih _ (i + 1) m h')

/-- When no step fail-fasts, the per-step trace carries one key per
workflow step, in order. -/
theorem stepTrace_keys_ok (agents : Registry) :
    ∀ (ws : List WStep) (ctx : Dict) (i : Nat),
      failIdx agents ws ctx i = none →
      (stepTrace agents ws ctx i).map Prod.fst =
        (List.range ws.length).map (fun j => RKey.step (i + j)) := by
  intro ws
  induction ws with
  | nil => intro ctx i _; simp [stepTrace]
  | cons step rest ih =>
    intro ctx i h
    cases heff : effAgent step with
    | none =>
      have h' : failIdx agents rest ctx (i + 1) = none := by
        simpa [failIdx, heff] using h
      rw [List.length_cons, range_map_shift]
      simp only [stepTrace, heff, List.map_cons]
      exact congrArg _ (ih ctx (i + 1) h')
    | some name =>
      by_cases herr : isErrorStatus (managerProcess agents name (mergedInput step ctx))
      · simp [failIdx, heff, if_pos herr] at h
      · have h' : failIdx agents rest
            (aset ctx name (.d (managerProcess agents name (mergedInput step ctx))))
            (i + 1) = none := by
          simpa [failIdx, heff, if_neg herr] using h
        rw [List.length_cons, range_map_shift]
        simp only [stepTrace, heff, if_neg herr, List.map_cons]
        exact congrArg _ (ih _ (i + 1) h')

/-- When no step fail-fasts, a step with no agent name is recorded in the
trace as the `"No agent specified"` error entry. -/
theorem stepTrace_noAgent (agents : Registry) :
    ∀ (ws : List WStep) (ctx : Dict) (i j : Nat) (hj : j < ws.length),
      failIdx agents ws ctx i = none →
      effAgent (ws.get ⟨j, hj⟩) = none →
      aget (stepTrace agents ws ctx i) (RKey.step (i + j)) =
        some (.d noAgentResult) := by
  intro ws
  induction ws with
  | nil => intro ctx i j hj; simp at hj
  | cons step rest ih =>
    intro ctx i j hj hfail hna
    cases heff : effAgent step with
    | none =>
      have hfail' : failIdx agents rest ctx (i + 1) = none := by
        simpa [failIdx, heff] using hfail
      cases j with
      | zero => simp [stepTrace, heff, aget]
      | succ j' =>
        have hj' : j' < rest.length := by simpa using hj
        have hna' : effAgent (rest.get ⟨j', hj'⟩) = none := hna
        have hidx : i + (j' + 1) = (i + 1) + j' := by omega
        simp only [stepTrace, heff]
        show (if RKey.step i = RKey.step (i + (j' + 1)) then some (Val.d noAgentResult)
          else aget (stepTrace agents rest ctx (i + 1)) (RKey.step (i + (j' + 1)))) =
          some (Val.d noAgentResult)
        rw [if_neg (by intro hc; injection hc with hc'; omega), hidx]
        exact ih ctx (i + 1) j' hj' hfail' hna'
    | some name =>
      by_cases herr : isErrorStatus (managerProcess agents name (mergedInput step ctx))
      · simp [failIdx, heff, if_pos herr] at hfail
      · have hfail' : failIdx agents rest
            (aset ctx name (.d (managerProcess agents name (mergedInput step ctx))))
            (i + 1) = none := by
          simpa [failIdx, heff, if_neg herr] using hfail
        cases j with
        | zero =>
          exfalso
          have : effAgent step = none := hna
          rw [heff] at this
          cases this
        | succ j' =>
          have hj' : j' < rest.length := by simpa using hj
          have hna' : effAgent (rest.get ⟨j', hj'⟩) = none := hna
          have hidx : i + (j' + 1) = (i + 1) + j' := by omega
          simp only [stepTrace, heff, if_neg herr]
          show (if RKey.step i = RKey.step (i + (j' + 1)) then
              some (Val.d (managerProcess agents name (mergedInput step ctx)))
            else aget (stepTrace agents rest
              (aset ctx name (.d (managerProcess agents name (mergedInput step ctx))))
              (i + 1)) (RKey.step (i + (j' + 1)))) = some (Val.d noAgentResult)
          rw [if_neg (by intro hc; injection hc with hc'; omega), hidx]
          exact ih _ (i + 1) j' hj' hfail' hna'

/-! ### Claims C1-C4 about the dispatcher and the workflow executor -/

/-- C1: if the step at index `k` produces a dispatcher result with status
`"error"` while further steps exist after `k`, `process_workflow` stops
before attempting any step after `k`: the result mapping holds per-step
entries exactly for indices `0..k` (keys `step_0..step_k`, in execution
order), the overall status is `"error"`, and the recorded failing index
(`failed_step`) equals `k`. -/
theorem C1_workflow_fail_fast (agents : Registry) (ws : List WStep) (k : Nat)
    (hfail : failIdx agents ws [] 0 = some k)
    (_hmore : k + 1 < ws.length) :
    (processWorkflow agents ws).map Prod.fst =
      (List.range (k + 1)).map RKey.step ++ [RKey.status, RKey.failed]
    ∧ aget (processWorkflow agents ws) RKey.status = some (.s "error")
    ∧ aget (processWorkflow agents ws) RKey.failed = some (.n k) := by
  have hrun := runAux_eq_fail agents ws 0 [] [] k (by simp) hfail
  simp only [List.nil_append] at hrun
  have hkeys : (stepTrace agents ws [] 0).map Prod.fst =
      (List.range (k + 1)).map RKey.step := by
    have h := stepTrace_keys_fail agents ws [] 0 k hfail
    simpa using h
  have hstatnot : RKey.status ∉ (stepTrace agents ws [] 0).map Prod.fst := by
    rw [hkeys]; exact status_not_mem_steps _
  have hfailnot : RKey.failed ∉ (stepTrace agents ws [] 0).map Prod.fst := by
    rw [hkeys]; exact failed_not_mem_steps _
  have hstat : aget (runWorkflowAux agents ws 0 [] []) RKey.status =
      some (.s "error") := by
    rw [hrun, aget_append_right _ _ _ hstatnot]
    rfl
  have hpw : processWorkflow agents ws = runWorkflowAux agents ws 0 [] [] := by
    unfold processWorkflow
    rw [hstat]
  refine ⟨?_, ?_, ?_⟩
  · rw [hpw, hrun, List.map_append, hkeys]
    rfl
  · rw [hpw]; exact hstat
  · rw [hpw, hrun, aget_append_right _ _ _ hfailnot]
    rfl

/-- Fixture: an agent behaviour that always returns successfully. -/
def okAgent : AgentInput → AgentResult := fun _ => .ok ⟨"ok", []⟩

/-- Fixture: a registry holding one well-behaved agent named "search". -/
def regW : Registry := [("search", okAgent)]

/-- Fixture: a 3-step workflow whose middle step names an unknown agent,
so its dispatch fails with status "error" while a further step exists. -/
def wsFail : List WStep :=
  [⟨some "search", ⟨none, none⟩⟩,
   ⟨some "badagent", ⟨none, none⟩⟩,
   ⟨some "search", ⟨none, none⟩⟩]

/-- Witness for C1 at a concrete workflow: step 1 dispatches an unknown
agent, step 2 is never attempted. -/
theorem C1_workflow_fail_fast_witness :
    failIdx regW wsFail [] 0 = some 1 ∧ 1 + 1 < wsFail.length ∧
    ((processWorkflow regW wsFail).map Prod.fst =
        (List.range (1 + 1)).map RKey.step ++ [RKey.status, RKey.failed]
      ∧ aget (processWorkflow regW wsFail) RKey.status = some (.s "error")
      ∧ aget (processWorkflow regW wsFail) RKey.failed = some (.n 1)) :=
  ⟨rfl, by decide, C1_workflow_fail_fast regW wsFail 1 rfl (by decide)⟩

/-- C4: a step with no agent name is recorded as the
`{status: "error", message: "No agent specified"}` entry under its
`step_<i>` key and the workflow continues; in a workflow where every step
either dispatches successfully or lacks an agent name, every step is
attempted (one entry per step, in order) and the overall status is
`"success"`. -/
theorem C4_no_agent_step_continues (agents : Registry) (ws : List WStep)
    (hok : failIdx agents ws [] 0 = none) :
    (processWorkflow agents ws).map Prod.fst =
      (List.range ws.length).map RKey.step ++ [RKey.status]
    ∧ aget (processWorkflow agents ws) RKey.status = some (.s "success")
    ∧ ∀ (j : Nat) (hj : j < ws.length), effAgent (ws.get ⟨j, hj⟩) = none →
        aget (processWorkflow agents ws) (RKey.step j) = some (.d noAgentResult) := by
  have hrun := runAux_eq_ok agents ws 0 [] [] (by simp) hok
  simp only [List.nil_append] at hrun
  have hkeys : (stepTrace agents ws [] 0).map Prod.fst =
      (List.range ws.length).map RKey.step := by
    have h := stepTrace_keys_ok agents ws [] 0 hok
    simpa using h
  have hstatnot : RKey.status ∉ (stepTrace agents ws [] 0).map Prod.fst := by
    rw [hkeys]; exact status_not_mem_steps _
  have hstat : aget (runWorkflowAux agents ws 0 [] []) RKey.status = none := by
    rw [hrun]; exact aget_eq_none_of_not_mem _ _ hstatnot
  have hpw : processWorkflow agents ws =
      (stepTrace agents ws [] 0) ++ [(RKey.status, .s "success")] := by
    unfold processWorkflow
    rw [hstat, hrun]
    exact aset_fresh _ _ _ hstatnot
  refine ⟨?_, ?_, ?_⟩
  · rw [hpw, List.map_append, hkeys]
    rfl
  · rw [hpw, aget_append_right _ _ _ hstatnot]
    rfl
  · intro j hj hna
    have h := stepTrace_noAgent agents ws [] 0 j hj hok hna
    rw [Nat.zero_add] at h
    rw [hpw]
    exact aget_append_left _ _ _ _ h

/-- Fixture: a 2-step workflow whose first step lacks an agent name and
whose second step dispatches successfully. -/
def wsNoAgent : List WStep :=
  [⟨none, ⟨none, none⟩⟩,
   ⟨some "search", ⟨none, none⟩⟩]

/-- Witness for C4 at a concrete workflow: the agent-less step 0 is
recorded and the workflow still reaches step 1 and ends with status
"success". -/
theorem C4_no_agent_step_continues_witness :
    failIdx regW wsNoAgent [] 0 = none ∧
    ((processWorkflow regW wsNoAgent).map Prod.fst =
        (List.range wsNoAgent.length).map RKey.step ++ [RKey.status]
      ∧ aget (processWorkflow regW wsNoAgent) RKey.status = some (.s "success")
      ∧ ∀ (j : Nat) (hj : j < wsNoAgent.length),
          effAgent (wsNoAgent.get ⟨j, hj⟩) = none →
          aget (processWorkflow regW wsNoAgent) (RKey.step j) =
            some (.d noAgentResult)) :=
  ⟨rfl, C4_no_agent_step_continues regW wsNoAgent rfl⟩

/-- C3: for every agent name not in the registry and every input,
`AgentManager.process` returns
`{status: "error", message: "Agent '<name>' not found"}` — a structured
value, not an exception (the model is a total function, and the unknown-name
branch returns before any agent behaviour is consulted). -/
theorem C3_unknown_agent_error (agents : Registry) (agentName : String)
    (input : StepInput) (h : aget agents agentName = none) :
    managerProcess agents agentName input =
      [("status", .s "error"),
       ("message", .s ("Agent '" ++ agentName ++ "' not found"))] := by
  unfold managerProcess
  rw [h]

/-- Witness for C3: the name "teleport" is not registered. -/
theorem C3_unknown_agent_error_witness :
    aget regW "teleport" = none ∧
    managerProcess regW "teleport" ⟨none, none⟩ =
      [("status", .s "error"),
       ("message", .s ("Agent '" ++ "teleport" ++ "' not found"))] :=
  ⟨rfl, C3_unknown_agent_error regW "teleport" ⟨none, none⟩ rfl⟩

/-! ### C2: context-merge precedence

Line 65 of `agent_manager.py` is `step_input["context"].update(context)`:
the accumulated `context` is merged in with `dict.update`, whose entries
overwrite colliding keys of the step's own input context.  The spec's
"the step's explicit context takes precedence" is therefore the exact
opposite of what the code does. -/

/-- Fixture: an agent behaviour that echoes the context it received into
its output metadata, making the dispatched context observable. -/
def probeAgent : AgentInput → AgentResult := fun inp => .ok ⟨"probe", inp.context⟩

/-- Fixture: registry with a well-behaved "search" agent and the probe. -/
def regProbe : Registry := [("search", okAgent), ("probe", probeAgent)]

/-- The dispatcher result of the successful "search" step of `wsCollide`. -/
def searchResult0 : Dict :=
  [("status", .s "success"), ("output", .s "ok"), ("metadata", .d [])]

/-- Fixture: step 1 explicitly binds context key "search" to `"B"`, which
collides with the accumulated entry left by step 0 (keyed by agent name). -/
def wsCollide : List WStep :=
  [⟨some "search", ⟨none, none⟩⟩,
   ⟨some "probe", ⟨none, some [("search", .s "B")]⟩⟩]

/-- Derived from the lines 52-78 loop: the accumulated `context` dict in
force when each attempted step is processed, in execution order (line 78
adds a successful dispatch's result under its agent name for the
following steps). -/
def ctxTrace (agents : Registry) : List WStep → Dict → List Dict
  | [], _ => []
  | step :: rest, ctx =>
      match effAgent step with
      | none => ctx :: ctxTrace agents rest ctx
      | some name =>
          if isErrorStatus (managerProcess agents name (mergedInput step ctx)) then
            [ctx]
          else
            ctx :: ctxTrace agents rest
              (aset ctx name (.d (managerProcess agents name (mergedInput step ctx))))

/-- Every accumulated context the workflow loop produces has
duplicate-free keys: it starts as `{}` and grows only by
`context[agent_name] = result`. -/
theorem ctxTrace_nodup (agents : Registry) :
    ∀ (ws : List WStep) (ctx : Dict), (ctx.map Prod.fst).Nodup →
      ∀ c ∈ ctxTrace agents ws ctx, (c.map Prod.fst).Nodup := by
  intro ws
  induction ws with
  | nil => intro ctx _ c hc; simp [ctxTrace] at hc
  | cons step rest ih =>
    intro ctx hctx c hc
    cases heff : effAgent step with
    | none =>
      simp only [ctxTrace, heff] at hc
      rcases List.mem_cons.mp hc with h | h
      · exact h ▸ hctx
      · exact ih ctx hctx c h
    | some name =>
      by_cases herr : isErrorStatus (managerProcess agents name (mergedInput step ctx))
      · simp only [ctxTrace, heff, if_pos herr, List.mem_singleton] at hc
        exact hc ▸ hctx
      · simp only [ctxTrace, heff, if_neg herr] at hc
        rcases List.mem_cons.mp hc with h | h
        · exact h ▸ hctx
        · exact ih _ (nodup_keys_aset ctx name _ hctx) c h

/-- Counterexample to C2: in the workflow `wsCollide`, step 1's input
context explicitly binds "search" to `"B"` while the context accumulated
by the run also binds "search" (to the step-0 result); after the line-65
merge the step executes with the inherited accumulated value, not `"B"`.
The five conjuncts trace the claim's scenario end to end: the explicit
binding; the accumulated contexts the run actually produces (empty for
step 0, `search ↦ step-0 result` for step 1); the merged context handed
to the dispatcher at step 1, which binds "search" to the inherited value;
the executed step observably receiving it (the probe echoes its received
context into its metadata, recorded under `step_1`); and the inherited
value differing from the explicit `"B"` — so the inherited value *does*
overwrite a key already present in the step's own input context. -/
theorem C2_counterexample :
    aget (((⟨some "probe", ⟨none, some [("search", .s "B")]⟩⟩ :
        WStep)).input.context.getD []) "search" = some (.s "B")
    ∧ ctxTrace regProbe wsCollide [] = [[], [("search", .d searchResult0)]]
    ∧ aget ((mergedInput ⟨some "probe", ⟨none, some [("search", .s "B")]⟩⟩
        [("search", .d searchResult0)]).context.getD []) "search" =
      some (.d searchResult0)
    ∧ aget (processWorkflow regProbe wsCollide) (RKey.step 1) =
        some (.d [("status", .s "success"), ("output", .s "probe"),
          ("metadata", .d [("search", .d searchResult0)])])
    ∧ Val.d searchResult0 ≠ Val.s "B" := by
  refine ⟨rfl, rfl, rfl, rfl, ?_⟩
  intro h
  exact Val.noConfusion h

/-- C2 amended: for every workflow step whose input context explicitly
binds a key `x` that is also bound in the accumulated inherited context,
the merge (line 65, `step_input["context"].update(context)`) makes the
step execute with the *inherited* value for `x` — the inherited value
always overwrites a key already present in the step's own input context
(`dict.update` semantics).  Keys the inherited context does not bind keep
the step's explicit values; and the duplicate-free-keys side condition on
the inherited context is an invariant of the loop: every accumulated
context a run produces satisfies it. -/
theorem C2_amended_inherited_wins :
    (∀ (s : WStep) (ctx : Dict) (x : String) (v w : Val),
        (ctx.map Prod.fst).Nodup →
        aget (s.input.context.getD []) x = some w →
        aget ctx x = some v →
          aget ((mergedInput s ctx).context.getD []) x = some v)
    ∧ (∀ (s : WStep) (ctx : Dict) (y : String), aget ctx y = none →
          aget ((mergedInput s ctx).context.getD []) y =
            aget (s.input.context.getD []) y)
    ∧ (∀ (agents : Registry) (ws : List WStep) (c : Dict),
          c ∈ ctxTrace agents ws [] → (c.map Prod.fst).Nodup) := by
  refine ⟨?_, ?_, ?_⟩
  · intro s ctx x v w hnd _ hx
    exact aget_dupdate_of_mem ctx hnd _ x v hx
  · intro s ctx y hy
    exact aget_dupdate_of_none ctx _ y hy
  · intro agents ws c hc
    exact ctxTrace_nodup agents ws [] (by simp) c hc

/-- Witness for the amended C2: a step explicitly binding "x" to `"B"`
with inherited context binding "x" to `"A"` executes with `"A"` after the
merge. -/
theorem C2_amended_inherited_wins_witness :
    aget (((⟨some "probe", ⟨none, some [("x", .s "B")]⟩⟩ :
        WStep)).input.context.getD []) "x" = some (.s "B")
    ∧ aget ([("x", Val.s "A")] : Dict) "x" = some (.s "A")
    ∧ aget ((mergedInput ⟨some "probe", ⟨none, some [("x", .s "B")]⟩⟩
        [("x", .s "A")]).context.getD []) "x" = some (.s "A") :=
  ⟨rfl, rfl,
    C2_amended_inherited_wins.1 ⟨some "probe", ⟨none, some [("x", .s "B")]⟩⟩
      [("x", .s "A")] "x" (.s "A") (.s "B") (by simp) rfl rfl⟩

/-! ### Optimizer agent tools (`optimizer_agent.py` lines 70-141)

A travel option is a JSON object; the tools read only its `"price"` and
`"duration_minutes"` fields (numeric when present), so an option is
embedded as those two optional fields plus an opaque remainder `rest`
carrying the other fields, which every tool passes through untouched.
Python floats are embedded as rationals.  The `json.loads` boundary is
embedded as an `Except`-typed argument: `.error e` is a payload whose
parse (or field decoding) raised an exception with message `e`. -/

structure TravelOption where
  price : Option ℚ
  duration_minutes : Option ℤ
  rest : List (String × String)
deriving DecidableEq, Repr

/-- Tool results of the optimizer tools (the dict before `json.dumps`):
an `{status: "error", message}` dict, a `{status: "success", result}`
dict, or the ranked form `{status: "success", result, all_ranked}` where
`result` is `ranked[0] if ranked else None`. -/
inductive OptResult where
  | err (message : String)
  | okOption (result : TravelOption)
  | okRanked (result : Option TravelOption) (all_ranked : List TravelOption)
deriving DecidableEq, Repr

/-- The `"status"` field of an optimizer tool result. -/
def OptResult.status : OptResult → String
  | .err _ => "error"
  | .okOption _ => "success"
  | .okRanked _ _ => "success"

/-- `float(x.get("price", float('inf')))`: a missing price compares as
`+inf`, i.e. `⊤` in `WithTop ℚ`. -/
def priceKey (o : TravelOption) : WithTop ℚ :=
  match o.price with
  | some p => (p : WithTop ℚ)
  | none => ⊤

/-- `int(x.get("duration_minutes", float('inf')))`: with the field
present the integral value is used; on a missing field Python raises
`OverflowError: cannot convert float infinity to integer`. -/
def durationInt (o : TravelOption) : Except String Int :=
  match o.duration_minutes with
  | some d => .ok d
  | none => .error "cannot convert float infinity to integer"

/-- Python `min(iterable, key=f)`: scan left to right, keeping the
current best and replacing it only on a strictly smaller key, so the
first minimizer wins. -/
def pyMin {α β : Type} [LinearOrder β] (key : α → β) (best : α) : List α → α
  | [] => best
  | y :: ys => if key y < key best then pyMin key y ys else pyMin key best ys

/-- Python `min` with a key function that can raise: keys are evaluated
left to right and the first raised exception propagates. -/
def pyMinE {α : Type} (key : α → Except String Int) (best : α) (kb : Int) :
    List α → Except String α
  | [] => .ok best
  | y :: ys =>
      match key y with
      | .error e => .error e
      | .ok ky => if ky < kb then pyMinE key y ky ys else pyMinE key best kb ys

/-- `OptimizerAgent._find_cheapest_option` (lines 70-84).  The payload is
the parsed `"options"` array (`data.get("options", [])`: an absent field
behaves as the empty list). -/
def find_cheapest_option : Except String (List TravelOption) → OptResult
  | .error e => .err e
  | .ok opts =>
      match opts with
      | [] => .err "No options provided"
      | x :: xs => .okOption (pyMin priceKey x xs)

/-- `OptimizerAgent._find_fastest_option` (lines 86-101). -/
def find_fastest_option : Except String (List TravelOption) → OptResult
  | .error e => .err e
  | .ok opts =>
      match opts with
      | [] => .err "No options provided"
      | x :: xs =>
          match durationInt x with
          | .error e => .err e
          | .ok kx =>
              match pyMinE durationInt x kx xs with
              | .error e => .err e
              | .ok best => .okOption best

theorem pyMin_mem {α β : Type} [LinearOrder β] (key : α → β) :
    ∀ (xs : List α) (best : α), pyMin key best xs = best ∨ pyMin key best xs ∈ xs := by
  intro xs
  induction xs with
  | nil => intro best; exact .inl rfl
  | cons y ys ih =>
    intro best
    simp only [pyMin]
    by_cases h : key y < key best
    · rw [if_pos h]
      rcases ih y with h' | h'
      · exact .inr (by rw [h']; exact List.mem_cons_self y ys)
      · exact .inr (List.mem_cons_of_mem y h')
    · rw [if_neg h]
      rcases ih best with h' | h'
      · exact .inl h'
      · exact .inr (List.mem_cons_of_mem y h')

theorem pyMin_le {α β : Type} [LinearOrder β] (key : α → β) :
    ∀ (xs : List α) (best : α),
      key (pyMin key best xs) ≤ key best ∧
      ∀ y ∈ xs, key (pyMin key best xs) ≤ key y := by
  intro xs
  induction xs with
  | nil => intro best; exact ⟨le_rfl, by simp⟩
  | cons y ys ih =>
    intro best
    simp only [pyMin]
    by_cases h : key y < key best
    · rw [if_pos h]
      refine ⟨le_trans (ih y).1 (le_of_lt h), ?_⟩
      intro z hz
      rcases List.mem_cons.mp hz with h' | h'
      · exact h' ▸ (ih y).1
      · exact (ih y).2 z h'
    · rw [if_neg h]
      refine ⟨(ih best).1, ?_⟩
      intro z hz
      rcases List.mem_cons.mp hz with h' | h'
      · exact h' ▸ le_trans (ih best).1 (le_of_not_lt h)
      · exact (ih best).2 z h'

theorem pyMinE_ok {α : Type} (key : α → Except String Int) :
    ∀ (xs : List α) (best : α) (kb : Int), key best = .ok kb →
      (∀ y ∈ xs, ∃ k, key y = .ok k) →
      ∃ m km, pyMinE key best kb xs = .ok m ∧ key m = .ok km ∧
        (m = best ∨ m ∈ xs) ∧ km ≤ kb ∧
        ∀ y ky, y ∈ xs → key y = .ok ky → km ≤ ky := by
  intro xs
  induction xs with
  | nil =>
    intro best kb hb _
    exact ⟨best, kb, rfl, hb, .inl rfl, le_rfl, by simp⟩
  | cons y ys ih =>
    intro best kb hb hall
    obtain ⟨ky, hky⟩ := hall y (List.mem_cons_self y ys)
    have hall' : ∀ z ∈ ys, ∃ k, key z = .ok k :=
      fun z hz => hall z (List.mem_cons_of_mem y hz)
    simp only [pyMinE, hky]
    by_cases h : ky < kb
    · rw [if_pos h]
      obtain ⟨m, km, hm, hkm, hmem, hle, hmin⟩ := ih y ky hky hall'
      refine ⟨m, km, hm, hkm, ?_, le_trans hle (le_of_lt h), ?_⟩
      · rcases hmem with h' | h'
        · exact .inr (h' ▸ List.mem_cons_self y ys)
        · exact .inr (List.mem_cons_of_mem y h')
      · intro z kz hz hkz
        rcases List.mem_cons.mp hz with h' | h'
        · subst h'
          rw [hky] at hkz
          cases hkz
          exact hle
        · exact hmin z kz h' hkz
    · rw [if_neg h]
      obtain ⟨m, km, hm, hkm, hmem, hle, hmin⟩ := ih best kb hb hall'
      refine ⟨m, km, hm, hkm, ?_, hle, ?_⟩
      · rcases hmem with h' | h'
        · exact .inl h'
        · exact .inr (List.mem_cons_of_mem y h')
      · intro z kz hz hkz
        rcases List.mem_cons.mp hz with h' | h'
        · subst h'
          rw [hky] at hkz
          cases hkz
          exact le_trans hle (le_of_not_lt h)
        · exact hmin z kz h' hkz

/-- C6: on a non-empty options list, `find_cheapest_option` returns an
element of the list whose price key (price, with a missing price counting
as `+inf`) is ≤ every other option's; with all prices present this is a
price ≤ every other price.  `find_fastest_option` does the same for
durations (all durations present, otherwise the `int(inf)` conversion
raises and is caught).  On the empty list both tools return the
structured error `"No options provided"`, not an exception and not a
default option. -/
theorem C6_min_tools (opts : List TravelOption) (hne : opts ≠ []) :
    (∃ o, find_cheapest_option (.ok opts) = .okOption o ∧ o ∈ opts ∧
      ∀ o2 ∈ opts, priceKey o ≤ priceKey o2)
    ∧ ((∀ o ∈ opts, o.price.isSome) →
        ∃ o, find_cheapest_option (.ok opts) = .okOption o ∧ o ∈ opts ∧
          ∀ o2 ∈ opts, o.price.getD 0 ≤ o2.price.getD 0)
    ∧ ((∀ o ∈ opts, o.duration_minutes.isSome) →
        ∃ o, find_fastest_option (.ok opts) = .okOption o ∧ o ∈ opts ∧
          ∀ o2 ∈ opts, o.duration_minutes.getD 0 ≤ o2.duration_minutes.getD 0)
    ∧ find_cheapest_option (.ok []) = .err "No options provided"
    ∧ find_fastest_option (.ok []) = .err "No options provided" := by
  obtain ⟨x, xs, rfl⟩ : ∃ y ys, opts = y :: ys := by
    cases opts with
    | nil => exact absurd rfl hne
    | cons y ys => exact ⟨y, ys, rfl⟩
  have hcheap : ∃ o, find_cheapest_option (.ok (x :: xs)) = .okOption o ∧
      o ∈ x :: xs ∧ ∀ o2 ∈ x :: xs, priceKey o ≤ priceKey o2 := by
    refine ⟨pyMin priceKey x xs, rfl, ?_, ?_⟩
    · rcases pyMin_mem priceKey xs x with h | h
      · rw [h]; exact List.mem_cons_self x xs
      · exact List.mem_cons_of_mem x h
    · intro o2 ho2
      rcases List.mem_cons.mp ho2 with h | h
      · exact h ▸ (pyMin_le priceKey xs x).1
      · exact (pyMin_le priceKey xs x).2 o2 h
  refine ⟨hcheap, ?_, ?_, rfl, rfl⟩
  · intro hall
    obtain ⟨o, ho, hmem, hmin⟩ := hcheap
    refine ⟨o, ho, hmem, ?_⟩
    intro o2 ho2
    obtain ⟨p, hp⟩ := Option.isSome_iff_exists.mp (hall o hmem)
    obtain ⟨p2, hp2⟩ := Option.isSome_iff_exists.mp (hall o2 ho2)
    have hko : priceKey o = (p : WithTop ℚ) := by simp [priceKey, hp]
    have hko2 : priceKey o2 = (p2 : WithTop ℚ) := by simp [priceKey, hp2]
    have := hmin o2 ho2
    rw [hko, hko2] at this
    rw [hp, hp2]
    simp only [Option.getD_some]
    exact_mod_cast this
  · intro hall
    obtain ⟨dx, hdx⟩ := Option.isSome_iff_exists.mp (hall x (List.mem_cons_self x xs))
    have hkx : durationInt x = .ok dx := by rw [durationInt, hdx]
    have hallE : ∀ y ∈ xs, ∃ k, durationInt y = .ok k := by
      intro y hy
      obtain ⟨d, hd⟩ := Option.isSome_iff_exists.mp (hall y (List.mem_cons_of_mem x hy))
      exact ⟨d, by rw [durationInt, hd]⟩
    obtain ⟨m, km, hm, hkm, hmem, hle, hmin⟩ := pyMinE_ok durationInt xs x dx hkx hallE
    have hmmem : m ∈ x :: xs := by
      rcases hmem with h | h
      · rw [h]; exact List.mem_cons_self x xs
      · exact List.mem_cons_of_mem x h
    refine ⟨m, ?_, hmmem, ?_⟩
    · simp only [find_fastest_option, hkx, hm]
    · intro o2 ho2
      have hmdur : m.duration_minutes = some km := by
        cases hd : m.duration_minutes with
        | none => simp only [durationInt, hd] at hkm; cases hkm
        | some d => simp only [durationInt, hd, Except.ok.injEq] at hkm; rw [hkm]
      obtain ⟨d2, hd2⟩ := Option.isSome_iff_exists.mp (hall o2 ho2)
      have hk2 : durationInt o2 = .ok d2 := by rw [durationInt, hd2]
      rw [hmdur, hd2]
      show km ≤ d2
      rcases List.mem_cons.mp ho2 with h | h
      · subst h
        rw [hkx] at hk2
        cases hk2
        exact hle
      · exact hmin o2 d2 h hk2

/-- Witness for C6 at a concrete two-option list. -/
theorem C6_min_tools_witness :
    ([⟨some 3, some 10, []⟩, ⟨some 2, some 5, []⟩] : List TravelOption) ≠ [] ∧
    ((∃ o, find_cheapest_option (.ok [⟨some 3, some 10, []⟩, ⟨some 2, some 5, []⟩]) =
        .okOption o ∧ o ∈ ([⟨some 3, some 10, []⟩, ⟨some 2, some 5, []⟩] :
          List TravelOption) ∧
        ∀ o2 ∈ ([⟨some 3, some 10, []⟩, ⟨some 2, some 5, []⟩] : List TravelOption),
          priceKey o ≤ priceKey o2)
      ∧ ((∀ o ∈ ([⟨some 3, some 10, []⟩, ⟨some 2, some 5, []⟩] : List TravelOption),
            o.price.isSome) →
          ∃ o, find_cheapest_option (.ok [⟨some 3, some 10, []⟩, ⟨some 2, some 5, []⟩]) =
            .okOption o ∧ o ∈ ([⟨some 3, some 10, []⟩, ⟨some 2, some 5, []⟩] :
              List TravelOption) ∧
            ∀ o2 ∈ ([⟨some 3, some 10, []⟩, ⟨some 2, some 5, []⟩] : List TravelOption),
              o.price.getD 0 ≤ o2.price.getD 0)
      ∧ ((∀ o ∈ ([⟨some 3, some 10, []⟩, ⟨some 2, some 5, []⟩] : List TravelOption),
            o.duration_minutes.isSome) →
          ∃ o, find_fastest_option (.ok [⟨some 3, some 10, []⟩, ⟨some 2, some 5, []⟩]) =
            .okOption o ∧ o ∈ ([⟨some 3, some 10, []⟩, ⟨some 2, some 5, []⟩] :
              List TravelOption) ∧
            ∀ o2 ∈ ([⟨some 3, some 10, []⟩, ⟨some 2, some 5, []⟩] : List TravelOption),
              o.duration_minutes.getD 0 ≤ o2.duration_minutes.getD 0)
      ∧ find_cheapest_option (.ok []) = .err "No options provided"
      ∧ find_fastest_option (.ok []) = .err "No options provided") :=
  ⟨List.cons_ne_nil _ _,
    C6_min_tools [⟨some 3, some 10, []⟩, ⟨some 2, some 5, []⟩] (List.cons_ne_nil _ _)⟩

/-! ### `recommend_based_on_preferences` (lines 103-141) -/

/-- The parsed `"preferences"` object: the two weight fields the scoring
reads (`data.get("preferences", {})`: an absent object behaves as one
with both fields absent). -/
structure Preferences where
  price_importance : Option ℚ
  duration_importance : Option ℚ
deriving DecidableEq, Repr

/-- `opt.get("price", 0)` as the scoring reads it (default 0 here, unlike
the `inf` default of the min tools). -/
def priceD (o : TravelOption) : ℚ := o.price.getD 0

/-- `opt.get("duration_minutes", 0)` as the scoring reads it. -/
def durD (o : TravelOption) : ℚ := ((o.duration_minutes.getD 0 : ℤ) : ℚ)

/-- Python `max(iterable)` over a non-empty list of numbers (the tool
checks `options` non-empty before scoring; the `[]` case is unreachable
there). -/
def pyMax : List ℚ → ℚ
  | [] => 0
  | x :: xs => xs.foldl max x

/-- `max(...) or 1`: Python `or` replaces a falsy value — here a zero
maximum — by `1`. -/
def maxOr1 (l : List ℚ) : ℚ := if pyMax l = 0 then 1 else pyMax l

/-- `calculate_score` (lines 115-130): weights default to `0.5`, each
term is `(1 - value/max) * weight`, with the maxima taken over the full
`options` list (recomputed per call in the source, over the same list
every time). -/
def calculate_score (options : List TravelOption) (prefs : Preferences)
    (o : TravelOption) : ℚ :=
  (1 - priceD o / maxOr1 (options.map priceD)) * prefs.price_importance.getD (1/2)
  + (1 - durD o / maxOr1 (options.map durD)) * prefs.duration_importance.getD (1/2)

/-- Insert into a descending-sorted list, placing `x` before the first
element whose key is `≤ key x` (so earlier-original elements stay before
equal-keyed later ones). -/
def insertDsc {α β : Type} [LinearOrder β] (key : α → β) (x : α) : List α → List α
  | [] => [x]
  | y :: ys => if key y ≤ key x then x :: y :: ys else y :: insertDsc key x ys

/-- Python `sorted(l, key=f, reverse=True)`: the stable descending sort.
`sortDsc` is an insertion sort; the permutation, descending-pairwise and
per-score-filter lemmas below pin its output down to exactly the unique
stable descending order that Python's `sorted` produces. -/
def sortDsc {α β : Type} [LinearOrder β] (key : α → β) : List α → List α
  | [] => []
  | x :: xs => insertDsc key x (sortDsc key xs)

/-- Payload of `_recommend_based_on_preferences`: the parsed `"options"`
array and `"preferences"` object. -/
structure RecommendPayload where
  options : List TravelOption
  preferences : Preferences
deriving DecidableEq, Repr

/-- `OptimizerAgent._recommend_based_on_preferences` (lines 103-141):
empty options are a structured error; otherwise the options are sorted by
score, descending, and the result is `ranked[0]` together with the whole
ranked list. -/
def recommend_based_on_preferences : Except String RecommendPayload → OptResult
  | .error e => .err e
  | .ok data =>
      if data.options = [] then .err "No options provided"
      else
        .okRanked (sortDsc (calculate_score data.options data.preferences)
            data.options).head?
          (sortDsc (calculate_score data.options data.preferences) data.options)

theorem insertDsc_perm {α β : Type} [LinearOrder β] (key : α → β) (x : α) :
    ∀ (l : List α), (insertDsc key x l).Perm (x :: l) := by
  intro l
  induction l with
  | nil => exact List.Perm.refl _
  | cons y ys ih =>
    show (if key y ≤ key x then x :: y :: ys else y :: insertDsc key x ys).Perm _
    by_cases h : key y ≤ key x
    · rw [if_pos h]
    · rw [if_neg h]
      exact ((ih.cons y).trans (List.Perm.swap x y ys))

theorem sortDsc_perm {α β : Type} [LinearOrder β] (key : α → β) :
    ∀ (l : List α), (sortDsc key l).Perm l := by
  intro l
  induction l with
  | nil => exact List.Perm.refl _
  | cons x xs ih =>
    exact (insertDsc_perm key x (sortDsc key xs)).trans (ih.cons x)

theorem insertDsc_pairwise {α β : Type} [LinearOrder β] (key : α → β) (x : α) :
    ∀ (l : List α), l.Pairwise (fun a b => key b ≤ key a) →
      (insertDsc key x l).Pairwise (fun a b => key b ≤ key a) := by
  intro l
  induction l with
  | nil => intro _; exact List.pairwise_singleton _ x
  | cons y ys ih =>
    intro hp
    rw [List.pairwise_cons] at hp
    show (if key y ≤ key x then x :: y :: ys else y :: insertDsc key x ys).Pairwise _
    by_cases h : key y ≤ key x
    · rw [if_pos h]
      rw [List.pairwise_cons]
      refine ⟨?_, List.pairwise_cons.mpr hp⟩
      intro z hz
      rcases List.mem_cons.mp hz with h' | h'
      · exact h' ▸ h
      · exact le_trans (hp.1 z h') h
    · rw [if_neg h]
      rw [List.pairwise_cons]
      refine ⟨?_, ih hp.2⟩
      intro z hz
      have hz' : z ∈ x :: ys := (insertDsc_perm key x ys).mem_iff.mp hz
      rcases List.mem_cons.mp hz' with h' | h'
      · exact h' ▸ le_of_lt (lt_of_not_le h)
      · exact hp.1 z h'

theorem sortDsc_pairwise {α β : Type} [LinearOrder β] (key : α → β) :
    ∀ (l : List α), (sortDsc key l).Pairwise (fun a b => key b ≤ key a) := by
  intro l
  induction l with
  | nil => exact List.Pairwise.nil
  | cons x xs ih => exact insertDsc_pairwise key x (sortDsc key xs) ih

theorem insertDsc_filter_eq {α β : Type} [LinearOrder β] (key : α → β) (x : α) :
    ∀ (l : List α),
      (insertDsc key x l).filter (fun o => decide (key o = key x)) =
        x :: l.filter (fun o => decide (key o = key x)) := by
  intro l
  induction l with
  | nil => simp [insertDsc, List.filter]
  | cons y ys ih =>
    show (if key y ≤ key x then x :: y :: ys else y :: insertDsc key x ys).filter _ = _
    by_cases h : key y ≤ key x
    · rw [if_pos h]
      simp [List.filter]
    · rw [if_neg h]
      have hy : ¬ key y = key x := fun hc => h (le_of_eq hc)
      simp only [List.filter, hy, decide_False]
      exact ih

theorem insertDsc_filter_ne {α β : Type} [LinearOrder β] (key : α → β) (x : α) (q : β)
    (hq : key x ≠ q) :
    ∀ (l : List α),
      (insertDsc key x l).filter (fun o => decide (key o = q)) =
        l.filter (fun o => decide (key o = q)) := by
  intro l
  induction l with
  | nil => simp [insertDsc, List.filter, hq]
  | cons y ys ih =>
    show (if key y ≤ key x then x :: y :: ys else y :: insertDsc key x ys).filter _ = _
    by_cases h : key y ≤ key x
    · rw [if_pos h]
      simp only [List.filter, hq, decide_False]
    · rw [if_neg h]
      simp only [List.filter]
      rw [ih]

/-- Stability: the list of options achieving any given score is the same,
in the same order, before and after the sort. -/
theorem sortDsc_filter_score {α β : Type} [LinearOrder β] (key : α → β) :
    ∀ (l : List α) (q : β),
      (sortDsc key l).filter (fun o => decide (key o = q)) =
        l.filter (fun o => decide (key o = q)) := by
  intro l
  induction l with
  | nil => intro q; rfl
  | cons x xs ih =>
    intro q
    show (insertDsc key x (sortDsc key xs)).filter _ = _
    by_cases h : key x = q
    · subst h
      rw [insertDsc_filter_eq key x (sortDsc key xs), ih]
      simp [List.filter]
    · rw [insertDsc_filter_ne key x q h (sortDsc key xs), ih]
      simp [List.filter, h]

/-- The scoring formula exactly as the claim words it, for comparison
with the source's `calculate_score`: "score =
price_importance×(1 − price/maxPrice) +
duration_importance×(1 − duration/maxDuration) ... maxPrice and
maxDuration computed once over the full candidate set with 0 substituted
if the computed max is 0".  Substituting 0 for a zero maximum leaves the
divisor 0; the division is read with the total-division convention
`x / 0 = 0`.  (The code instead substitutes 1: `max(...) or 1`.) -/
def claimScore (options : List TravelOption) (prefs : Preferences)
    (o : TravelOption) : ℚ :=
  prefs.price_importance.getD (1/2) * (1 - priceD o / pyMax (options.map priceD))
  + prefs.duration_importance.getD (1/2) * (1 - durD o / pyMax (options.map durD))

/-- Fixture for the C7 counterexample: two options with the same
duration; prices 0 and −1 make the computed price maximum 0, so the
code's `or 1` substitution (divisor 1) and the claim's "0 substituted"
(divisor 0) disagree. -/
def o1ce : TravelOption := ⟨some 0, some 10, []⟩

def o2ce : TravelOption := ⟨some (-1), some 10, []⟩

/-- Counterexample to C7 as stated: on `[o1ce, o2ce]` with default
preferences the claim's scores (divisor 0 when the computed max is 0) tie
at `1/2`, so any ranking consistent with the claim is the stable order
`[o1ce, o2ce]` with top-1 `o1ce`; the code's scores (divisor 1 via
`or 1`) are `1/2` and `1`, and the tool actually returns top-1 `o2ce`
with ranked list `[o2ce, o1ce]`. -/
theorem C7_counterexample :
    claimScore [o1ce, o2ce] ⟨none, none⟩ o1ce =
        claimScore [o1ce, o2ce] ⟨none, none⟩ o2ce
    ∧ sortDsc (claimScore [o1ce, o2ce] ⟨none, none⟩) [o1ce, o2ce] = [o1ce, o2ce]
    ∧ calculate_score [o1ce, o2ce] ⟨none, none⟩ o1ce <
        calculate_score [o1ce, o2ce] ⟨none, none⟩ o2ce
    ∧ recommend_based_on_preferences (.ok ⟨[o1ce, o2ce], ⟨none, none⟩⟩) =
        .okRanked (some o2ce) [o2ce, o1ce]
    ∧ o1ce ≠ o2ce := by
  have hc1 : claimScore [o1ce, o2ce] ⟨none, none⟩ o1ce = 1/2 := by
    norm_num [claimScore, priceD, durD, pyMax, o1ce, o2ce, List.map, List.foldl]
  have hc2 : claimScore [o1ce, o2ce] ⟨none, none⟩ o2ce = 1/2 := by
    norm_num [claimScore, priceD, durD, pyMax, o1ce, o2ce, List.map, List.foldl]
  have hs1 : calculate_score [o1ce, o2ce] ⟨none, none⟩ o1ce = 1/2 := by
    norm_num [calculate_score, maxOr1, priceD, durD, pyMax, o1ce, o2ce,
      List.map, List.foldl]
  have hs2 : calculate_score [o1ce, o2ce] ⟨none, none⟩ o2ce = 1 := by
    norm_num [calculate_score, maxOr1, priceD, durD, pyMax, o1ce, o2ce,
      List.map, List.foldl]
  have hsortClaim : sortDsc (claimScore [o1ce, o2ce] ⟨none, none⟩) [o1ce, o2ce] =
      [o1ce, o2ce] := by
    show insertDsc _ o1ce (insertDsc _ o2ce []) = _
    show (if claimScore [o1ce, o2ce] ⟨none, none⟩ o2ce ≤
        claimScore [o1ce, o2ce] ⟨none, none⟩ o1ce then _ else _) = _
    rw [if_pos (by rw [hc1, hc2])]
  have hsortCode : sortDsc (calculate_score [o1ce, o2ce] ⟨none, none⟩) [o1ce, o2ce] =
      [o2ce, o1ce] := by
    show insertDsc _ o1ce (insertDsc _ o2ce []) = _
    show (if calculate_score [o1ce, o2ce] ⟨none, none⟩ o2ce ≤
        calculate_score [o1ce, o2ce] ⟨none, none⟩ o1ce then _ else _) = _
    rw [if_neg (by rw [hs1, hs2]; norm_num)]
    rfl
  refine ⟨by rw [hc1, hc2], hsortClaim, by rw [hs1, hs2]; norm_num, ?_, ?_⟩
  · show (if ([o1ce, o2ce] : List TravelOption) = [] then
        OptResult.err "No options provided"
      else OptResult.okRanked (sortDsc (calculate_score [o1ce, o2ce]
          ⟨none, none⟩) [o1ce, o2ce]).head?
        (sortDsc (calculate_score [o1ce, o2ce] ⟨none, none⟩) [o1ce, o2ce])) =
      OptResult.okRanked (some o2ce) [o2ce, o1ce]
    rw [if_neg (List.cons_ne_nil _ _), hsortCode]
    rfl
  · intro h
    have := congrArg TravelOption.price h
    simp [o1ce, o2ce] at this

/-- C7 amended ("1 substituted" in place of the claim's "0 substituted"):
on a non-empty options list the tool returns the head of the ranked list
together with the full ranked list; the ranked list is a permutation of
the options, sorted descending by score, stable (options of equal score
keep their original relative order); every candidate's score is
price_importance×(1 − price/maxPrice) +
duration_importance×(1 − duration/maxDuration) with the weights
defaulting to 1/2, the maxima computed over the full candidate set and
**1** substituted for a zero maximum; and the returned top-1 has maximal
score among all options. -/
theorem C7_preference_ranking (opts : List TravelOption) (prefs : Preferences)
    (hne : opts ≠ []) :
    recommend_based_on_preferences (.ok ⟨opts, prefs⟩) =
      .okRanked (sortDsc (calculate_score opts prefs) opts).head?
        (sortDsc (calculate_score opts prefs) opts)
    ∧ (sortDsc (calculate_score opts prefs) opts).Perm opts
    ∧ (sortDsc (calculate_score opts prefs) opts).Pairwise
        (fun a b => calculate_score opts prefs b ≤ calculate_score opts prefs a)
    ∧ (∀ q : ℚ, (sortDsc (calculate_score opts prefs) opts).filter
        (fun o => decide (calculate_score opts prefs o = q)) =
        opts.filter (fun o => decide (calculate_score opts prefs o = q)))
    ∧ (∀ o, calculate_score opts prefs o =
        prefs.price_importance.getD (1/2) *
          (1 - priceD o / (if pyMax (opts.map priceD) = 0 then 1
            else pyMax (opts.map priceD)))
        + prefs.duration_importance.getD (1/2) *
          (1 - durD o / (if pyMax (opts.map durD) = 0 then 1
            else pyMax (opts.map durD))))
    ∧ (∀ r, (sortDsc (calculate_score opts prefs) opts).head? = some r →
        ∀ o ∈ opts, calculate_score opts prefs o ≤ calculate_score opts prefs r) := by
  refine ⟨?_, sortDsc_perm _ opts, sortDsc_pairwise _ opts,
    fun q => sortDsc_filter_score _ opts q, ?_, ?_⟩
  · show (if opts = [] then OptResult.err "No options provided" else _) = _
    rw [if_neg hne]
  · intro o
    show (1 - priceD o / maxOr1 (opts.map priceD)) * prefs.price_importance.getD (1/2)
        + (1 - durD o / maxOr1 (opts.map durD)) * prefs.duration_importance.getD (1/2)
      = _
    rw [maxOr1, maxOr1]
    ring
  · intro r hr o ho
    have hperm := sortDsc_perm (calculate_score opts prefs) opts
    have hmem : o ∈ sortDsc (calculate_score opts prefs) opts := hperm.mem_iff.mpr ho
    cases hsort : sortDsc (calculate_score opts prefs) opts with
    | nil => rw [hsort] at hmem; cases hmem
    | cons hd tl =>
      rw [hsort] at hr
      have hhd : hd = r := by
        simp only [List.head?] at hr
        cases hr
        rfl
      subst hhd
      rw [hsort] at hmem
      have hpw := sortDsc_pairwise (calculate_score opts prefs) opts
      rw [hsort, List.pairwise_cons] at hpw
      rcases List.mem_cons.mp hmem with h | h
      · exact le_of_eq (by rw [h])
      · exact hpw.1 o h

/-- Witness for the amended C7 at a concrete two-option list. -/
theorem C7_preference_ranking_witness :
    ([⟨some 4, some 20, []⟩, ⟨some 1, some 30, []⟩] : List TravelOption) ≠ [] ∧
    (recommend_based_on_preferences
        (.ok ⟨[⟨some 4, some 20, []⟩, ⟨some 1, some 30, []⟩], ⟨some (3/4), none⟩⟩) =
      .okRanked (sortDsc (calculate_score
          [⟨some 4, some 20, []⟩, ⟨some 1, some 30, []⟩] ⟨some (3/4), none⟩)
          [⟨some 4, some 20, []⟩, ⟨some 1, some 30, []⟩]).head?
        (sortDsc (calculate_score
          [⟨some 4, some 20, []⟩, ⟨some 1, some 30, []⟩] ⟨some (3/4), none⟩)
          [⟨some 4, some 20, []⟩, ⟨some 1, some 30, []⟩])) :=
  ⟨List.cons_ne_nil _ _,
    (C7_preference_ranking [⟨some 4, some 20, []⟩, ⟨some 1, some 30, []⟩]
      ⟨some (3/4), none⟩ (List.cons_ne_nil _ _)).1⟩

/-! ### Payment agent tools (`payment_agent.py` lines 76-155)

The transaction store `self.transactions` is a dict keyed by transaction
id.  `uuid.uuid4()` and `datetime.utcnow()` are external inputs, passed
in as the `freshId` / `now` parameters.  A transaction's `amount` is the
payload's `"amount"` value, which may be absent (`none`).  The three
refund keys are added together by the refund tool, recorded as an
optional `RefundInfo`. -/

structure RefundInfo where
  refund_id : String
  refund_amount : Option ℚ
  refund_timestamp : String
deriving DecidableEq, Repr

structure Transaction where
  transaction_id : String
  amount : Option ℚ
  currency : String
  status : String
  payment_method : Option String
  booking_reference : Option String
  user_id : Option String
  timestamp : String
  refund : Option RefundInfo
deriving DecidableEq, Repr

abbrev TxnStore := List (String × Transaction)

/-- Parsed payload of `_process_payment`. -/
structure PaymentPayload where
  amount : Option ℚ
  currency : Option String
  payment_method : Option String
  booking_reference : Option String
  user_id : Option String
deriving DecidableEq, Repr

/-- Parsed payload of `_process_refund`. -/
structure RefundPayload where
  transaction_id : Option String
  amount : Option ℚ
deriving DecidableEq, Repr

/-- Parsed payload of `_get_transaction_status`. -/
structure TidPayload where
  transaction_id : Option String
deriving DecidableEq, Repr

/-- Payment tool results (the dict before `json.dumps`). -/
inductive PayResult where
  | err (message : String)
  | okPayment (transaction_id : String) (message : String)
  | okRefund (refund_id : String) (amount_refunded : Option ℚ) (message : String)
  | okStatus (transaction : Transaction)
deriving DecidableEq, Repr

/-- The `"status"` field of a payment tool result. -/
def PayResult.status : PayResult → String
  | .err _ => "error"
  | .okPayment _ _ => "success"
  | .okRefund _ _ _ => "success"
  | .okStatus _ => "success"

/-- `PaymentAgent._process_payment` (lines 76-105): in the simulation
`payment_successful` is the constant `True`, so the stored status is
`"completed"` and the result is the success branch. -/
def process_payment (store : TxnStore) (payload : Except String PaymentPayload)
    (freshId now : String) : TxnStore × PayResult :=
  match payload with
  | .error e => (store, .err e)
  | .ok data =>
      (aset store freshId
        { transaction_id := freshId
          amount := data.amount
          currency := data.currency.getD "USD"
          status := "completed"
          payment_method := data.payment_method
          booking_reference := data.booking_reference
          user_id := data.user_id
          timestamp := now
          refund := none },
       .okPayment freshId "Payment processed successfully")

/-- `refund_amount = data.get("amount", transaction["amount"])`: the
payload's `"amount"` when present, else the stored transaction's. -/
def refundAmount (requested : Option ℚ) (txn : Transaction) : Option ℚ :=
  match requested with
  | some a => some a
  | none => txn.amount

/-- `PaymentAgent._process_refund` (lines 107-138): error when the id is
absent (a payload without the field looks up `None`, never a key);
`refund_successful` is the constant `True`, so the refund fields are
written and the success branch returned. -/
def process_refund (store : TxnStore) (payload : Except String RefundPayload)
    (freshId now : String) : TxnStore × PayResult :=
  match payload with
  | .error e => (store, .err e)
  | .ok data =>
      match data.transaction_id with
      | none => (store, .err "Transaction not found")
      | some tid =>
          match aget store tid with
          | none => (store, .err "Transaction not found")
          | some txn =>
              (aset store tid
                { txn with refund := some ⟨freshId, refundAmount data.amount txn, now⟩ },
               .okRefund freshId (refundAmount data.amount txn)
                 "Refund processed successfully")

/-- `PaymentAgent._get_transaction_status` (lines 140-155). -/
def get_transaction_status (store : TxnStore) (payload : Except String TidPayload) :
    PayResult :=
  match payload with
  | .error e => .err e
  | .ok data =>
      match data.transaction_id with
      | none => .err "Transaction not found"
      | some tid =>
          match aget store tid with
          | none => .err "Transaction not found"
          | some txn => .okStatus txn

/-- C8: refunding a stored transaction with no `"amount"` in the payload
refunds exactly the original transaction's stored amount — the refund
fields written back to the store and the returned `amount_refunded` both
equal the transaction's `amount` — and the refund succeeds; refunding an
id absent from the store returns the structured error
`"Transaction not found"` (and leaves the store unchanged). -/
theorem C8_refund_defaults_to_amount (store : TxnStore) (tid : String)
    (txn : Transaction) (freshId now : String) (h : aget store tid = some txn) :
    process_refund store (.ok ⟨some tid, none⟩) freshId now =
      (aset store tid { txn with refund := some ⟨freshId, txn.amount, now⟩ },
       .okRefund freshId txn.amount "Refund processed successfully")
    ∧ ∀ (tid2 : String), aget store tid2 = none →
        process_refund store (.ok ⟨some tid2, none⟩) freshId now =
          (store, .err "Transaction not found") := by
  constructor
  · simp only [process_refund, h, refundAmount]
  · intro tid2 h2
    simp only [process_refund, h2]

/-- Fixture: a stored transaction of amount 100. -/
def txnW : Transaction :=
  ⟨"txn_1", some 100, "USD", "completed", some "card", some "bk_1", some "u1",
    "2024-01-01T00:00:00", none⟩

/-- Fixture: a transaction store holding `txnW`. -/
def tstoreW : TxnStore := [("txn_1", txnW)]

/-- Witness for C8 at a concrete store. -/
theorem C8_refund_defaults_to_amount_witness :
    aget tstoreW "txn_1" = some txnW ∧
    (process_refund tstoreW (.ok ⟨some "txn_1", none⟩) "ref_1" "T1" =
        (aset tstoreW "txn_1"
          { txnW with refund := some ⟨"ref_1", txnW.amount, "T1"⟩ },
         .okRefund "ref_1" txnW.amount "Refund processed successfully")
      ∧ ∀ (tid2 : String), aget tstoreW tid2 = none →
          process_refund tstoreW (.ok ⟨some tid2, none⟩) "ref_1" "T1" =
            (tstoreW, .err "Transaction not found")) :=
  ⟨rfl, C8_refund_defaults_to_amount tstoreW "txn_1" txnW "ref_1" "T1" rfl⟩

/-! ### Notification agent tools (`notification_agent.py` lines 75-158)

The notification store `self.notifications` is a dict keyed by the
sequential ids `f"notif_{len(self.notifications) + 1}"`.
`datetime.utcnow()` is an external input, passed in as `now`.  The
`"read_at"` key is absent until the first mark-read; `read_at = none`
models the absent key.  The `print` calls are console output with no
modeled effect. -/

structure Notification where
  notification_id : String
  user_id : Option String
  title : Option String
  message : Option String
  notification_type : String
  metadata : List (String × String)
  is_read : Bool
  created_at : String
  read_at : Option String
deriving DecidableEq, Repr

abbrev NotifStore := List (String × Notification)

/-- Parsed payload of `_send_notification`. -/
structure SendPayload where
  user_id : Option String
  title : Option String
  message : Option String
  notification_type : Option String
  metadata : Option (List (String × String))
deriving DecidableEq, Repr

/-- Parsed payload of `_get_user_notifications`. -/
structure ListPayload where
  user_id : Option String
  limit : Option Nat
  unread_only : Option Bool
deriving DecidableEq, Repr

/-- Parsed payload of `_mark_notification_read`. -/
structure MarkPayload where
  notification_id : Option String
deriving DecidableEq, Repr

/-- Notification tool results (the dict before `json.dumps`). -/
inductive NotifResult where
  | err (message : String)
  | okSend (notification_id : String) (message : String)
  | okList (notifications : List Notification) (total : Nat) (unread_count : Nat)
  | okMark (message : String)
deriving DecidableEq, Repr

/-- The `"status"` field of a notification tool result. -/
def NotifResult.status : NotifResult → String
  | .err _ => "error"
  | .okSend _ _ => "success"
  | .okList _ _ _ => "success"
  | .okMark _ => "success"

/-- `NotificationAgent._send_notification` (lines 75-109). -/
def send_notification (store : NotifStore) (payload : Except String SendPayload)
    (now : String) : NotifStore × NotifResult :=
  match payload with
  | .error e => (store, .err e)
  | .ok data =>
      (aset store ("notif_" ++ toString (store.length + 1))
        { notification_id := "notif_" ++ toString (store.length + 1)
          user_id := data.user_id
          title := data.title
          message := data.message
          notification_type := data.notification_type.getD "email"
          metadata := data.metadata.getD []
          is_read := false
          created_at := now
          read_at := none },
       .okSend ("notif_" ++ toString (store.length + 1))
         "Notification sent successfully")

/-- `NotificationAgent._get_user_notifications` (lines 111-138): filter
the stored values by owner, optionally keep unread only, sort by creation
time newest-first (Python's stable `sort` with `reverse=True`), truncate
to `limit` (default 10), and report total and unread counts over the
filtered pre-truncation list. -/
def get_user_notifications (store : NotifStore)
    (payload : Except String ListPayload) : NotifResult :=
  match payload with
  | .error e => .err e
  | .ok data =>
      .okList
        ((sortDsc (fun n => n.created_at)
          (if data.unread_only.getD false then
            ((store.map Prod.snd).filter (fun n => n.user_id == data.user_id)).filter
              (fun n => !n.is_read)
          else
            (store.map Prod.snd).filter (fun n => n.user_id == data.user_id))).take
          (data.limit.getD 10))
        (sortDsc (fun n => n.created_at)
          (if data.unread_only.getD false then
            ((store.map Prod.snd).filter (fun n => n.user_id == data.user_id)).filter
              (fun n => !n.is_read)
          else
            (store.map Prod.snd).filter (fun n => n.user_id == data.user_id))).length
        ((sortDsc (fun n => n.created_at)
          (if data.unread_only.getD false then
            ((store.map Prod.snd).filter (fun n => n.user_id == data.user_id)).filter
              (fun n => !n.is_read)
          else
            (store.map Prod.snd).filter (fun n => n.user_id == data.user_id))).countP
          (fun n => !n.is_read))

/-- `NotificationAgent._mark_notification_read` (lines 140-158): a
payload without the field looks up `None` (never a key), so it errors;
otherwise `is_read` is set to `True` and `read_at` is set to the current
time — unconditionally, on every call. -/
def mark_notification_read (store : NotifStore)
    (payload : Except String MarkPayload) (now : String) :
    NotifStore × NotifResult :=
  match payload with
  | .error e => (store, .err e)
  | .ok data =>
      match data.notification_id with
      | none => (store, .err "Notification not found")
      | some nid =>
          match aget store nid with
          | none => (store, .err "Notification not found")
          | some n =>
              (aset store nid { n with is_read := true, read_at := some now },
               .okMark "Notification marked as read")

/-- The found case of `_mark_notification_read` as one equation. -/
theorem mark_read_found (store : NotifStore) (nid : String) (n : Notification)
    (now : String) (h : aget store nid = some n) :
    mark_notification_read store (.ok ⟨some nid⟩) now =
      (aset store nid { n with is_read := true, read_at := some now },
       .okMark "Notification marked as read") := by
  show (match aget store nid with
    | none => (store, NotifResult.err "Notification not found")
    | some n => (aset store nid { n with is_read := true, read_at := some now },
        NotifResult.okMark "Notification marked as read")) = _
  rw [h]

/-- The missing case of `_mark_notification_read` as one equation. -/
theorem mark_read_missing (store : NotifStore) (nid : String) (now : String)
    (h : aget store nid = none) :
    mark_notification_read store (.ok ⟨some nid⟩) now =
      (store, .err "Notification not found") := by
  show (match aget store nid with
    | none => (store, NotifResult.err "Notification not found")
    | some n => (aset store nid { n with is_read := true, read_at := some now },
        NotifResult.okMark "Notification marked as read")) = _
  rw [h]

/-- Fixture: a stored unread notification. -/
def notifW : Notification :=
  ⟨"notif_1", some "u1", some "Trip booked", some "Your trip is booked",
    "email", [], false, "2024-01-01T00:00:00", none⟩

/-- Fixture: a notification store holding `notifW`. -/
def nstoreW : NotifStore := [("notif_1", notifW)]

/-- Fixture: `nstoreW` after marking `notif_1` read at time `"T1"`. -/
def nstoreOnce : NotifStore :=
  (mark_notification_read nstoreW (.ok ⟨some "notif_1"⟩) "T1").1

/-- Fixture: `nstoreOnce` after marking `notif_1` read again at `"T2"`. -/
def nstoreTwice : NotifStore :=
  (mark_notification_read nstoreOnce (.ok ⟨some "notif_1"⟩) "T2").1

/-- Counterexample to C9: `_mark_notification_read` sets `read_at` to the
current time unconditionally on every call, so the second of two
invocations (at a different time) *does* change the `readAt` set by the
first — `readAt` is not set once. -/
theorem C9_counterexample :
    (aget nstoreOnce "notif_1").map Notification.read_at = some (some "T1")
    ∧ (aget nstoreTwice "notif_1").map Notification.read_at = some (some "T2")
    ∧ (aget nstoreTwice "notif_1").map Notification.read_at ≠
        (aget nstoreOnce "notif_1").map Notification.read_at
    ∧ (aget nstoreTwice "notif_1").map Notification.is_read = some true := by
  refine ⟨rfl, rfl, ?_, rfl⟩
  intro h
  have hcontra : (some (some "T2") : Option (Option String)) = some (some "T1") := by
    calc some (some "T2")
        = (aget nstoreTwice "notif_1").map Notification.read_at := rfl
      _ = (aget nstoreOnce "notif_1").map Notification.read_at := h
      _ = some (some "T1") := rfl
  exact absurd hcontra (by decide)

/-- C9 amended: marking a stored notification read twice is idempotent in
`isRead` — it ends (and stays) `true` — but `readAt` is overwritten on
every invocation: after the second call `readAt` equals the second call's
timestamp, so the second call changes `readAt` whenever its timestamp
differs from the first's. -/
theorem C9_mark_read_twice (store : NotifStore) (nid : String) (n : Notification)
    (t1 t2 : String) (h : aget store nid = some n) :
    aget (mark_notification_read
        (mark_notification_read store (.ok ⟨some nid⟩) t1).1
        (.ok ⟨some nid⟩) t2).1 nid =
      some { n with is_read := true, read_at := some t2 } := by
  have h1 : aget (mark_notification_read store (.ok ⟨some nid⟩) t1).1 nid =
      some { n with is_read := true, read_at := some t1 } := by
    rw [mark_read_found store nid n t1 h]
    exact aget_aset_self _ _ _
  rw [mark_read_found (mark_notification_read store (.ok ⟨some nid⟩) t1).1 nid
    { n with is_read := true, read_at := some t1 } t2 h1]
  exact aget_aset_self _ _ _

/-- Witness for the amended C9 at a concrete store and two timestamps. -/
theorem C9_mark_read_twice_witness :
    aget nstoreW "notif_1" = some notifW ∧
    aget (mark_notification_read
        (mark_notification_read nstoreW (.ok ⟨some "notif_1"⟩) "T1").1
        (.ok ⟨some "notif_1"⟩) "T2").1 "notif_1" =
      some { notifW with is_read := true, read_at := some "T2" } :=
  ⟨rfl, C9_mark_read_twice nstoreW "notif_1" notifW "T1" "T2" rfl⟩

/-- C10 (frame property): `_mark_notification_read` touches at most the
`is_read` and `read_at` fields of the notification with the given id —
every other stored notification is unchanged, and the target's other
seven fields are unchanged; when the payload parses without a usable id,
or the id is absent from the store, the entire store is unchanged. -/
theorem C10_mark_read_frame (store : NotifStore) (nid : Option String)
    (now : String) :
    (∀ e : String, (mark_notification_read store (.error e) now).1 = store)
    ∧ (nid = none → (mark_notification_read store (.ok ⟨nid⟩) now).1 = store)
    ∧ ∀ (idv : String), nid = some idv →
        ((aget store idv = none →
            (mark_notification_read store (.ok ⟨nid⟩) now).1 = store)
        ∧ (∀ k, k ≠ idv →
            aget (mark_notification_read store (.ok ⟨nid⟩) now).1 k = aget store k)
        ∧ (∀ n, aget store idv = some n →
            ∃ n2, aget (mark_notification_read store (.ok ⟨nid⟩) now).1 idv = some n2
              ∧ n2.notification_id = n.notification_id
              ∧ n2.user_id = n.user_id
              ∧ n2.title = n.title
              ∧ n2.message = n.message
              ∧ n2.notification_type = n.notification_type
              ∧ n2.metadata = n.metadata
              ∧ n2.created_at = n.created_at
              ∧ n2.is_read = true
              ∧ n2.read_at = some now)) := by
  refine ⟨fun e => rfl, ?_, ?_⟩
  · intro h
    subst h
    rfl
  · intro idv h
    subst h
    refine ⟨?_, ?_, ?_⟩
    · intro h0
      rw [mark_read_missing store idv now h0]
    · intro k hk
      cases h0 : aget store idv with
      | none => rw [mark_read_missing store idv now h0]
      | some n =>
        rw [mark_read_found store idv n now h0]
        exact aget_aset_ne store k idv _ (Ne.symm hk)
    · intro n h0
      refine ⟨{ n with is_read := true, read_at := some now }, ?_, rfl, rfl, rfl,
        rfl, rfl, rfl, rfl, rfl, rfl⟩
      rw [mark_read_found store idv n now h0]
      exact aget_aset_self _ _ _

/-- Witness for C10: the frame property instantiated at the concrete
store `nstoreW`, id `notif_1`, time `"T9"`. -/
theorem C10_mark_read_frame_witness :
    (∀ e : String, (mark_notification_read nstoreW (.error e) "T9").1 = nstoreW)
    ∧ ((some "notif_1" : Option String) = none →
        (mark_notification_read nstoreW (.ok ⟨some "notif_1"⟩) "T9").1 = nstoreW)
    ∧ ∀ (idv : String), (some "notif_1" : Option String) = some idv →
        ((aget nstoreW idv = none →
            (mark_notification_read nstoreW (.ok ⟨some "notif_1"⟩) "T9").1 = nstoreW)
        ∧ (∀ k, k ≠ idv →
            aget (mark_notification_read nstoreW (.ok ⟨some "notif_1"⟩) "T9").1 k =
              aget nstoreW k)
        ∧ (∀ n, aget nstoreW idv = some n →
            ∃ n2, aget (mark_notification_read nstoreW
                (.ok ⟨some "notif_1"⟩) "T9").1 idv = some n2
              ∧ n2.notification_id = n.notification_id
              ∧ n2.user_id = n.user_id
              ∧ n2.title = n.title
              ∧ n2.message = n.message
              ∧ n2.notification_type = n.notification_type
              ∧ n2.metadata = n.metadata
              ∧ n2.created_at = n.created_at
              ∧ n2.is_read = true
              ∧ n2.read_at = some "T9")) :=
  C10_mark_read_frame nstoreW (some "notif_1") "T9"

/-! ### Search agent tools (`search_agent.py` lines 62-113)

Both tools return a simulated single-result list built from the parsed
parameters; an f-string over `params.get('departure_date')` (which can be
`None`) renders `None` as the text `"None"`. -/

/-- Parsed payload of the search tools. -/
structure SearchPayload where
  origin : Option String
  destination : Option String
  departure_date : Option String
  date : Option String
deriving DecidableEq, Repr

/-- f-string rendering of a possibly-`None` string value. -/
def pyStr (s : Option String) : String := s.getD "None"

structure Flight where
  id : String
  airline : String
  flight_number : String
  origin : String
  destination : String
  departure_time : String
  arrival_time : String
  price : ℚ
  currency : String
deriving DecidableEq, Repr

structure Train where
  id : String
  train_name : String
  train_number : String
  origin : String
  destination : String
  departure_time : String
  arrival_time : String
  price : ℚ
  currency : String
  travel_class : String
deriving DecidableEq, Repr

/-- Search tool results (the dict before `json.dumps`). -/
inductive SearchResult where
  | err (message : String)
  | okFlights (results : List Flight)
  | okTrains (results : List Train)
deriving DecidableEq, Repr

/-- The `"status"` field of a search tool result. -/
def SearchResult.status : SearchResult → String
  | .err _ => "error"
  | .okFlights _ => "success"
  | .okTrains _ => "success"

/-- `SearchAgent._search_flights` (lines 62-86). -/
def search_flights (payload : Except String SearchPayload) : SearchResult :=
  match payload with
  | .error e => .err e
  | .ok p =>
      .okFlights [
        { id := "flt_123"
          airline := "Demo Airlines"
          flight_number := "DA123"
          origin := p.origin.getD "Unknown"
          destination := p.destination.getD "Unknown"
          departure_time := pyStr p.departure_date ++ "T10:00:00"
          arrival_time := pyStr p.departure_date ++ "T12:00:00"
          price := 29999/100
          currency := "USD" }]

/-- `SearchAgent._search_trains` (lines 88-113).  The JSON field
`"class"` is a Lean keyword, recorded as `travel_class`. -/
def search_trains (payload : Except String SearchPayload) : SearchResult :=
  match payload with
  | .error e => .err e
  | .ok p =>
      .okTrains [
        { id := "train_456"
          train_name := "Express Train"
          train_number := "ET456"
          origin := p.origin.getD "Unknown"
          destination := p.destination.getD "Unknown"
          departure_time := pyStr p.date ++ "T08:30:00"
          arrival_time := pyStr p.date ++ "T11:45:00"
          price := 8999/100
          currency := "USD"
          travel_class := "Standard" }]

theorem optStatus_cases (r : OptResult) :
    r.status = "success" ∨ r.status = "error" := by
  cases r <;> simp [OptResult.status]

theorem payStatus_cases (r : PayResult) :
    r.status = "success" ∨ r.status = "error" := by
  cases r <;> simp [PayResult.status]

theorem notifStatus_cases (r : NotifResult) :
    r.status = "success" ∨ r.status = "error" := by
  cases r <;> simp [NotifResult.status]

theorem searchStatus_cases (r : SearchResult) :
    r.status = "success" ∨ r.status = "error" := by
  cases r <;> simp [SearchResult.status]

/-- C5: every tool of every agent is wrapped in `try/except` returning a
serialized structured result, so no exception crosses the tool boundary.
In the embedding each of the eleven tools is a total function; a payload
whose parse raised with message `e` yields exactly the structured error
`{status: "error", message: e}` (state-holding tools also leave their
store untouched), and every tool output has status `"success"` or
`"error"` — never anything else. -/
theorem C5_tool_boundary :
    (∀ e : String, search_flights (.error e) = .err e)
    ∧ (∀ e : String, search_trains (.error e) = .err e)
    ∧ (∀ e : String, find_cheapest_option (.error e) = .err e)
    ∧ (∀ e : String, find_fastest_option (.error e) = .err e)
    ∧ (∀ e : String, recommend_based_on_preferences (.error e) = .err e)
    ∧ (∀ (e : String) (store : TxnStore) (freshId now : String),
        process_payment store (.error e) freshId now = (store, .err e))
    ∧ (∀ (e : String) (store : TxnStore) (freshId now : String),
        process_refund store (.error e) freshId now = (store, .err e))
    ∧ (∀ (e : String) (store : TxnStore),
        get_transaction_status store (.error e) = .err e)
    ∧ (∀ (e : String) (store : NotifStore) (now : String),
        send_notification store (.error e) now = (store, .err e))
    ∧ (∀ (e : String) (store : NotifStore),
        get_user_notifications store (.error e) = .err e)
    ∧ (∀ (e : String) (store : NotifStore) (now : String),
        mark_notification_read store (.error e) now = (store, .err e))
    ∧ (∀ p, (search_flights p).status = "success" ∨
        (search_flights p).status = "error")
    ∧ (∀ p, (search_trains p).status = "success" ∨
        (search_trains p).status = "error")
    ∧ (∀ p, (find_cheapest_option p).status = "success" ∨
        (find_cheapest_option p).status = "error")
    ∧ (∀ p, (find_fastest_option p).status = "success" ∨
        (find_fastest_option p).status = "error")
    ∧ (∀ p, (recommend_based_on_preferences p).status = "success" ∨
        (recommend_based_on_preferences p).status = "error")
    ∧ (∀ store p freshId now, ((process_payment store p freshId now).2.status = "success" ∨
        (process_payment store p freshId now).2.status = "error"))
    ∧ (∀ store p freshId now, ((process_refund store p freshId now).2.status = "success" ∨
        (process_refund store p freshId now).2.status = "error"))
    ∧ (∀ store p, ((get_transaction_status store p).status = "success" ∨
        (get_transaction_status store p).status = "error"))
    ∧ (∀ store p now, ((send_notification store p now).2.status = "success" ∨
        (send_notification store p now).2.status = "error"))
    ∧ (∀ store p, ((get_user_notifications store p).status = "success" ∨
        (get_user_notifications store p).status = "error"))
    ∧ (∀ store p now, ((mark_notification_read store p now).2.status = "success" ∨
        (mark_notification_read store p now).2.status = "error")) :=
  ⟨fun _ => rfl, fun _ => rfl, fun _ => rfl, fun _ => rfl, fun _ => rfl,
    fun _ _ _ _ => rfl, fun _ _ _ _ => rfl, fun _ _ => rfl, fun _ _ _ => rfl,
    fun _ _ => rfl, fun _ _ _ => rfl,
    fun _ => searchStatus_cases _,
    fun _ => searchStatus_cases _,
    fun _ => optStatus_cases _,
    fun _ => optStatus_cases _,
    fun _ => optStatus_cases _,
    fun _ _ _ _ => payStatus_cases _,
    fun _ _ _ _ => payStatus_cases _,
    fun _ _ => payStatus_cases _,
    fun _ _ _ => notifStatus_cases _,
    fun _ _ => notifStatus_cases _,
    fun _ _ _ => notifStatus_cases _⟩

end TravelAgent
